import Mathlib

/-!
# Family Draft frontend (`src/app.js`)

A shallow embedding of the draft client: the filter/sort step of `renderPairsTable`
(the view pipeline), `escapeHtml`, `computeTakenSet`, `badgeAvailable`, the sort-header
click handler, and the state-passing behaviour of `loadState`, `submitPick`,
`showAdminMsg` and `start`.

Conventions of the embedding.

* A JavaScript number is a `JSNum`: `NaN`, the two infinities, or a finite value.  A
  finite double is a rational number, so finite values are carried as `ℚ`.  The code
  only compares numbers, tests them for zero and looks at the sign of a difference or of
  a product with `1`/`-1`; on doubles the rounded difference of two finite values has the
  sign of the exact one, so exact rational arithmetic decides the same branches.
* `localeCompare` and `toLowerCase` belong to the host (they follow the locale data of
  the browser); they are fields of `Host`.  What the sort needs from a collation is
  stated in `Host.Lawful`.
* `Array.prototype.sort` is a stable sort that reads the comparator result by sign and
  takes `NaN` for `0`; it is embedded as a stable insertion sort, `jsSort`.
* Record fields are typed after the data model: `pair_id` is a string, `sport` and
  `country` are text fields (a string, or missing), the four score columns hold a number,
  a missing value (absent, `null` or the empty string of a blank cell) or a cell text
  that is not a number, such as `"N/A"`.  A string that converts to a number is read by
  the code as that number and is carried as it.
-/

namespace FamilyDraft

/-! ## Numbers -/

/-- A JavaScript number: `NaN`, `-Infinity`, `Infinity`, or a finite value. -/
inductive JSNum where
  | nan
  | negInf
  | posInf
  | fin (q : ℚ)
  deriving DecidableEq

namespace JSNum

/-- The global `isFinite` on a number. -/
def isFinite : JSNum → Bool
  | fin _ => true
  | _ => false

/-- Subtraction `a - b`. -/
def sub : JSNum → JSNum → JSNum
  | nan, _ => nan
  | _, nan => nan
  | fin a, fin b => fin (a - b)
  | fin _, posInf => negInf
  | fin _, negInf => posInf
  | posInf, posInf => nan
  | posInf, _ => posInf
  | negInf, negInf => nan
  | negInf, _ => negInf

/-- Multiplication `a * b`. -/
def mul : JSNum → JSNum → JSNum
  | nan, _ => nan
  | _, nan => nan
  | fin a, fin b => fin (a * b)
  | fin a, posInf => if a = 0 then nan else if 0 < a then posInf else negInf
  | fin a, negInf => if a = 0 then nan else if 0 < a then negInf else posInf
  | posInf, fin b => if b = 0 then nan else if 0 < b then posInf else negInf
  | negInf, fin b => if b = 0 then nan else if 0 < b then negInf else posInf
  | posInf, posInf => posInf
  | posInf, negInf => negInf
  | negInf, posInf => negInf
  | negInf, negInf => posInf

/-- Strict equality `a === b` on numbers (`NaN` equals nothing). -/
def strictEq : JSNum → JSNum → Bool
  | nan, _ => false
  | _, nan => false
  | a, b => decide (a = b)

/-- The relational operator `a < b` on numbers (false whenever `NaN` is involved). -/
def lt : JSNum → JSNum → Bool
  | nan, _ => false
  | _, nan => false
  | _, negInf => false
  | negInf, _ => true
  | posInf, _ => false
  | fin _, posInf => true
  | fin a, fin b => decide (a < b)

/-- The relational operator `a >= b` on numbers (false whenever `NaN` is involved). -/
def ge : JSNum → JSNum → Bool
  | nan, _ => false
  | _, nan => false
  | a, b => !(lt a b)

/-- Truthiness of a number: `0` and `NaN` are falsy. -/
def truthy : JSNum → Bool
  | nan => false
  | fin q => decide (q ≠ 0)
  | _ => true

/-- How `Array.prototype.sort` reads a comparator result: its sign, `NaN` read as `0`. -/
def sortOrder : JSNum → Int
  | nan => 0
  | negInf => -1
  | posInf => 1
  | fin q => if q < 0 then -1 else if 0 < q then 1 else 0

end JSNum

/-! ## Field values -/

/-- The value of a numeric column of a projection record: a number, a missing value
(absent, `null`, the empty string), or a text `s` that does not convert to a number
(`Number(s)` is `NaN`, and `s` is not empty, so it is truthy). -/
inductive NumField where
  | absent
  | null
  | empty
  | num (n : JSNum)
  | text (s : String)
  deriving DecidableEq

/-- The value of a text column of a projection record: a string, or missing. -/
inductive TextField where
  | absent
  | null
  | str (s : String)
  deriving DecidableEq

/-- A scalar as it appears in the `ok` flag of a response. -/
inductive JSVal where
  | undefined
  | null
  | bool (b : Bool)
  | num (n : JSNum)
  | str (s : String)
  deriving DecidableEq

namespace NumField

/-- The conversion `Number(v)`: `undefined` is `NaN`, `null` and `""` are `0`, a text
that is not a number is `NaN`. -/
def toNumber : NumField → JSNum
  | absent => JSNum.nan
  | null => JSNum.fin 0
  | empty => JSNum.fin 0
  | num n => n
  | text _ => JSNum.nan

/-- Truthiness of a field value. -/
def truthy : NumField → Bool
  | num n => n.truthy
  | text _ => true
  | _ => false

/-- The value is a text that does not convert to a number. -/
def isText : NumField → Bool
  | text _ => true
  | _ => false

/-- The expression `Number(v || 0)`. -/
def orZeroNumber (v : NumField) : JSNum :=
  if v.truthy then v.toNumber else JSNum.fin 0

end NumField

namespace TextField

/-- Truthiness of a text field: missing values and `""` are falsy. -/
def truthy : TextField → Bool
  | str s => decide (s ≠ "")
  | _ => false

/-- The conversion `String(v)`. -/
def toStr : TextField → String
  | absent => "undefined"
  | null => "null"
  | str s => s

/-- The expression `v || ""`, which is a string for every text field. -/
def orEmpty (v : TextField) : String :=
  if v.truthy then v.toStr else ""

/-- Strict equality `v === f` against a string `f`. -/
def strictEqStr (v : TextField) (f : String) : Bool :=
  match v with
  | str s => decide (s = f)
  | _ => false

end TextField

namespace JSVal

/-- Truthiness of a scalar. -/
def truthy : JSVal → Bool
  | undefined => false
  | null => false
  | bool b => b
  | num n => n.truthy
  | str s => decide (s ≠ "")

end JSVal

/-! ## Host functions -/

/-- The string built-ins whose result depends on the host locale data. -/
structure Host where
  /-- The method `a.localeCompare(b)`: negative, zero or positive. -/
  localeCompare : String → String → Int
  /-- The method `s.toLowerCase()`. -/
  toLowerCase : String → String

/-- What a collation guarantees: swapping the arguments swaps the sign, and
"not after" is transitive. -/
structure Host.Lawful (H : Host) : Prop where
  swap_neg : ∀ a b, H.localeCompare a b < 0 ↔ 0 < H.localeCompare b a
  trans_le : ∀ a b c, H.localeCompare a b ≤ 0 → H.localeCompare b c ≤ 0 →
    H.localeCompare a c ≤ 0

/-- The method `s.includes(q)`: `q` occurs in `s` as a contiguous run. -/
def includes (s q : String) : Bool :=
  decide (q.toList <:+: s.toList)

/-- Comparison of two character lists by code point. -/
def compareCodePoints : List Char → List Char → Int
  | [], [] => 0
  | [], _ :: _ => -1
  | _ :: _, [] => 1
  | a :: as, b :: bs =>
    if a.toNat < b.toNat then -1
    else if b.toNat < a.toNat then 1
    else compareCodePoints as bs

/-- A concrete host used to evaluate examples: collation by code point, ASCII
lower-casing.  On plain lower-case ASCII words it agrees with every browser locale. -/
def asciiHost : Host where
  localeCompare := fun a b => compareCodePoints a.toList b.toList
  toLowerCase := fun s => s.toLower

/-! ## Data model -/

/-- One record of `STATE.projections`. -/
structure Projection where
  pair_id : String
  sport : TextField
  country : TextField
  power_rank : NumField
  projected_points : NumField
  num_medals : NumField
  last_year_score : NumField
  deriving DecidableEq

/-- A table row: the projection spread into a new object together with `isTaken`. -/
structure Row where
  p : Projection
  isTaken : Bool
  deriving DecidableEq

/-- The snapshot held in `STATE`.  A state response is this object itself, so it carries
the `ok` flag; `projections` and `taken_pair_ids` are `none` when absent or `null`. -/
structure Snapshot where
  ok : JSVal
  draft_status : Option String
  projections : Option (List Projection)
  taken_pair_ids : Option (List String)
  deriving DecidableEq

/-- The two text columns that can be a sort key. -/
inductive TextKey where
  | sport
  | country
  deriving DecidableEq

/-- The four numeric columns that can be a sort key. -/
inductive NumKey where
  | power_rank
  | projected_points
  | num_medals
  | last_year_score
  deriving DecidableEq

/-- The values of the `data-sort` attributes of the table header. -/
inductive SortKey where
  | text (k : TextKey)
  | num (k : NumKey)
  deriving DecidableEq

/-- The two values `SORT.dir` takes, `"asc"` and `"desc"`. -/
inductive Dir where
  | asc
  | desc
  deriving DecidableEq

/-- The global `SORT`. -/
structure SortParams where
  key : SortKey
  dir : Dir
  deriving DecidableEq

/-- The global `FILTERS`. -/
structure Filters where
  sport : String
  search : String
  showChosen : Bool
  deriving DecidableEq

/-- The initial value of `SORT`. -/
def SORT : SortParams := { key := .num .projected_points, dir := .desc }

/-- The initial value of `FILTERS`. -/
def FILTERS : Filters := { sport := "", search := "", showChosen := false }

/-- The property read `a[key]` for a text key. -/
def Row.textAt (r : Row) : TextKey → TextField
  | .sport => r.p.sport
  | .country => r.p.country

/-- The property read `a[key]` for a numeric key. -/
def Row.numAt (r : Row) : NumKey → NumField
  | .power_rank => r.p.power_rank
  | .projected_points => r.p.projected_points
  | .num_medals => r.p.num_medals
  | .last_year_score => r.p.last_year_score

/-! ## Rendering helpers -/

/-- The function `badgeAvailable`. -/
def badgeAvailable (isTaken : Bool) : String :=
  if isTaken then "<span class=\"badge no\">Taken</span>"
  else "<span class=\"badge ok\">Available</span>"

/-- The replacement of one character by `escapeHtml`; code point 34 is the double quote
and 39 the single quote. -/
def escapeChar (c : Char) : List Char :=
  if c = '&' then "&amp;".toList
  else if c = '<' then "&lt;".toList
  else if c = '>' then "&gt;".toList
  else if c = Char.ofNat 34 then "&quot;".toList
  else if c = Char.ofNat 39 then "&#039;".toList
  else [c]

/-- The function `escapeHtml` on a string: every match of `[&<>"']` is replaced. -/
def escapeHtml (str : String) : String :=
  String.mk (str.toList.flatMap escapeChar)

/-- The function `computeTakenSet`: the members of the set, empty when `STATE` is `null`
or has no `taken_pair_ids`. -/
def computeTakenSet (STATE : Option Snapshot) : List String :=
  match STATE with
  | some S =>
    match S.taken_pair_ids with
    | some ids => ids
    | none => []
  | none => []

/-! ## The filter/sort step of `renderPairsTable` -/

/-- Insertion of `x` before the first element it does not sort after. -/
def jsSortInsert {α : Type} (cmp : α → α → JSNum) (x : α) : List α → List α
  | [] => [x]
  | y :: ys =>
    if (cmp x y).sortOrder ≤ 0 then x :: y :: ys
    else y :: jsSortInsert cmp x ys

/-- The method `rows.sort(cmp)`: a stable sort by the sign of the comparator. -/
def jsSort {α : Type} (cmp : α → α → JSNum) : List α → List α
  | [] => []
  | x :: xs => jsSortInsert cmp x (jsSort cmp xs)

/-- The factor `dir`: `1` for `"asc"`, `-1` otherwise. -/
def dirFactor : Dir → ℚ
  | .asc => 1
  | .desc => -1

/-- The comparator of the text branch. -/
def textCompare (H : Host) (key : TextKey) (dir : Dir) (a b : Row) : JSNum :=
  let av := (a.textAt key).orEmpty
  let bv := (b.textAt key).orEmpty
  let c := H.localeCompare av bv
  if c ≠ 0 then JSNum.fin ((c : ℚ) * dirFactor dir)
  else JSNum.sub b.p.projected_points.orZeroNumber a.p.projected_points.orZeroNumber

/-- The value `aN` of the numeric branch: `Number(a[key])`, or `-Infinity` when that is
not finite. -/
def sortValue (key : NumKey) (a : Row) : JSNum :=
  let av := (a.numAt key).toNumber
  if av.isFinite then av else JSNum.negInf

/-- The tie-break of the numeric branch: `sport`, then `country`. -/
def tieBreak (H : Host) (a b : Row) : Int :=
  let s := H.localeCompare a.p.sport.toStr b.p.sport.toStr
  if s ≠ 0 then s
  else H.localeCompare a.p.country.toStr b.p.country.toStr

/-- The comparator of the numeric branch. -/
def numericCompare (H : Host) (key : NumKey) (dir : Dir) (a b : Row) : JSNum :=
  let aN := sortValue key a
  let bN := sortValue key b
  if JSNum.strictEq aN bN then JSNum.fin (tieBreak H a b)
  else JSNum.mul (JSNum.sub aN bN) (JSNum.fin (dirFactor dir))

/-- The rows before filtering: each projection with its `isTaken` flag. -/
def annotate (taken : List String) (S : Snapshot) : List Row :=
  (S.projections.getD []).map (fun p => { p := p, isTaken := taken.contains p.pair_id })

/-- The first filter: drop taken rows unless `showChosen`. -/
def filterChosen (F : Filters) (rows : List Row) : List Row :=
  if !F.showChosen then rows.filter (fun r => !r.isTaken) else rows

/-- The second filter: exact sport, when one is set. -/
def filterSport (F : Filters) (rows : List Row) : List Row :=
  if F.sport ≠ "" then rows.filter (fun r => r.p.sport.strictEqStr F.sport) else rows

/-- The third filter: free-text search in `country` or `sport`, when a query is set. -/
def filterSearch (H : Host) (F : Filters) (rows : List Row) : List Row :=
  if F.search ≠ "" then
    let q := H.toLowerCase F.search
    rows.filter (fun r =>
      includes (H.toLowerCase r.p.country.orEmpty) q ||
      includes (H.toLowerCase r.p.sport.orEmpty) q)
  else rows

/-- The sort step. -/
def sortRows (H : Host) (s : SortParams) (rows : List Row) : List Row :=
  match s.key with
  | .text k => jsSort (textCompare H k s.dir) rows
  | .num k => jsSort (numericCompare H k s.dir) rows

/-- The rows `renderPairsTable` puts in the table body for a snapshot. -/
def pairsTableRows (H : Host) (S : Snapshot) (F : Filters) (s : SortParams) : List Row :=
  let taken := computeTakenSet (some S)
  let rows := annotate taken S
  let rows := filterChosen F rows
  let rows := filterSport F rows
  let rows := filterSearch H F rows
  sortRows H s rows

/-- The status cell of a rendered row. -/
def statusCell (r : Row) : String :=
  "<td>" ++ badgeAvailable r.isTaken ++ "</td>"

/-- The function `renderPairsTable` as far as the table body goes: the rows in display
order, each with its status cell.  Reading `STATE.projections` throws when `STATE` is
`null`. -/
def renderPairsTable (H : Host) (STATE : Option Snapshot) (F : Filters) (s : SortParams) :
    Except String (List (Row × String)) :=
  match STATE with
  | none => .error "TypeError"
  | some S => .ok ((pairsTableRows H S F s).map (fun r => (r, statusCell r)))

/-- The click handler of a sort header with `data-sort` equal to `k`. -/
def clickSort (s : SortParams) (k : SortKey) : SortParams :=
  if s.key = k then
    { s with dir := if s.dir = .asc then .desc else .asc }
  else
    let d : Dir := if k = .num .power_rank then .asc else .desc
    let d : Dir := if k = .text .sport ∨ k = .text .country then .asc else d
    { key := k, dir := d }

/-! ## Comparators and the sort -/

/-- A consistent comparator, read by sign: swapping the arguments swaps the sign, and
"not after" is transitive. -/
structure IsCmp {α : Type} (c : α → α → Int) : Prop where
  swap_neg : ∀ a b, c a b < 0 ↔ 0 < c b a
  trans_le : ∀ a b d, c a b ≤ 0 → c b d ≤ 0 → c a d ≤ 0

/-- Two comparators combined as `if (c1 !== 0) return c1; return c2`. -/
def lexCmp {α : Type} (c1 c2 : α → α → Int) (a b : α) : Int :=
  if c1 a b ≠ 0 then c1 a b else c2 a b


/-- The sign of an integer, as `-1`, `0` or `1`. -/
def signInt (t : Int) : Int :=
  if t < 0 then -1 else if 0 < t then 1 else 0

/-- The place of a number on the extended line (`NaN` is given the place of
`-Infinity`; it is never compared). -/
def JSNum.ext : JSNum → WithBot (WithTop ℚ)
  | .nan => ⊥
  | .negInf => ⊥
  | .posInf => ((⊤ : WithTop ℚ) : WithBot (WithTop ℚ))
  | .fin q => ((q : WithTop ℚ) : WithBot (WithTop ℚ))

/-- The order of two rows by their sort value alone, in direction `d`. -/
def keyCmp (k : NumKey) (d : Dir) (a b : Row) : Int :=
  match d with
  | .asc => (JSNum.sub (sortValue k a) (sortValue k b)).sortOrder
  | .desc => (JSNum.sub (sortValue k b) (sortValue k a)).sortOrder

/-! ## The documented orders -/

/-- Row `a` is after row `b` in ascending `sport`-then-`country` order. -/
def pairAfter (H : Host) (a b : Row) : Prop :=
  0 < H.localeCompare a.p.sport.toStr b.p.sport.toStr ∨
  (H.localeCompare a.p.sport.toStr b.p.sport.toStr = 0 ∧
    0 < H.localeCompare a.p.country.toStr b.p.country.toStr)

/-- Row `a` may stand before row `b` under a numeric key: its value is strictly smaller
(`asc`) or strictly larger (`desc`), or the values are equal and `a` is not after `b` in
`sport`-then-`country` order. -/
def numericOrdered (H : Host) (k : NumKey) (d : Dir) (a b : Row) : Prop :=
  (match d with
    | .asc => JSNum.lt (sortValue k a) (sortValue k b) = true
    | .desc => JSNum.lt (sortValue k b) (sortValue k a) = true) ∨
  (JSNum.strictEq (sortValue k a) (sortValue k b) = true ∧ ¬ pairAfter H a b)

/-- Row `a` may stand before row `b` under a text key: its text is not after that of `b`
in the direction `d`, and when the two texts collate as equal its projected points are
at least those of `b`. -/
def textOrdered (H : Host) (k : TextKey) (d : Dir) (a b : Row) : Prop :=
  (match d with
    | .asc => H.localeCompare (a.textAt k).orEmpty (b.textAt k).orEmpty ≤ 0
    | .desc => 0 ≤ H.localeCompare (a.textAt k).orEmpty (b.textAt k).orEmpty) ∧
  (H.localeCompare (a.textAt k).orEmpty (b.textAt k).orEmpty = 0 →
    JSNum.ge a.p.projected_points.orZeroNumber b.p.projected_points.orZeroNumber = true)

/-- The projected points of a row as a number, a text that is no number counted as
`0`; on every other value this is `Number(projected_points || 0)`. -/
def pointsOf (a : Row) : JSNum :=
  if a.p.projected_points.isText then JSNum.fin 0 else a.p.projected_points.orZeroNumber

/-- The order of two rows by projected points alone, larger first. -/
def pointsCmp (a b : Row) : Int :=
  (JSNum.sub (pointsOf b) (pointsOf a)).sortOrder

/-- The text comparator with `pointsOf` in place of `Number(projected_points || 0)`:
it agrees with `textCompare` on rows whose projected points are no text. -/
def textCompareNum (H : Host) (key : TextKey) (dir : Dir) (a b : Row) : JSNum :=
  let av := (a.textAt key).orEmpty
  let bv := (b.textAt key).orEmpty
  let c := H.localeCompare av bv
  if c ≠ 0 then JSNum.fin ((c : ℚ) * dirFactor dir)
  else JSNum.sub (pointsOf b) (pointsOf a)

/-- The order of two rows by their text alone, in direction `d`. -/
def textKeyCmp (H : Host) (k : TextKey) (d : Dir) (a b : Row) : Int :=
  match d with
  | .asc => H.localeCompare (a.textAt k).orEmpty (b.textAt k).orEmpty
  | .desc => H.localeCompare (b.textAt k).orEmpty (a.textAt k).orEmpty

/-- A snapshot with three projections, one of them taken. -/
def demoSnapshot : Snapshot where
  ok := .bool true
  draft_status := some "OPEN"
  projections := some [
    { pair_id := "P1", sport := .str "skiing", country := .str "nor",
      power_rank := .num (.fin 1), projected_points := .num (.fin 12),
      num_medals := .num (.fin 3), last_year_score := .num (.fin 9) },
    { pair_id := "P2", sport := .str "curling", country := .str "swe",
      power_rank := .num (.fin 2), projected_points := .num (.fin 7),
      num_medals := .empty, last_year_score := .null },
    { pair_id := "P3", sport := .str "skiing", country := .str "sui",
      power_rank := .absent, projected_points := .num (.fin 12),
      num_medals := .num (.fin 0), last_year_score := .num (.fin (-5)) } ]
  taken_pair_ids := some ["P1"]

/-- A snapshot with three projections of one sport whose projected points are `5`, the
text `"N/A"` and `7`. -/
def textPointsSnapshot : Snapshot where
  ok := .bool true
  draft_status := some "OPEN"
  projections := some [
    { pair_id := "a", sport := .str "skiing", country := .str "nor",
      power_rank := .num (.fin 1), projected_points := .num (.fin 5),
      num_medals := .num (.fin 1), last_year_score := .num (.fin 1) },
    { pair_id := "b", sport := .str "skiing", country := .str "swe",
      power_rank := .num (.fin 2), projected_points := .text "N/A",
      num_medals := .num (.fin 1), last_year_score := .num (.fin 1) },
    { pair_id := "c", sport := .str "skiing", country := .str "sui",
      power_rank := .num (.fin 3), projected_points := .num (.fin 7),
      num_medals := .num (.fin 1), last_year_score := .num (.fin 1) } ]
  taken_pair_ids := some []

/-! ## The documented filter -/

/-- The search text `q` occurs in `s` when case is ignored. -/
def caseInsensitiveIn (H : Host) (q s : String) : Bool :=
  includes (H.toLowerCase s) (H.toLowerCase q)

/-- A projection passes all three filters at once: it is not taken or `showChosen` is
set; no sport is selected or its sport is exactly the selected one; no search text is
given or the text occurs, case ignored, in its country or in its sport. -/
def passesFilters (H : Host) (S : Snapshot) (F : Filters) (p : Projection) : Bool :=
  (decide (p.pair_id ∉ S.taken_pair_ids.getD []) || F.showChosen) &&
  (decide (F.sport = "") || decide (p.sport = .str F.sport)) &&
  (decide (F.search = "") ||
    (caseInsensitiveIn H F.search p.country.orEmpty ||
      caseInsensitiveIn H F.search p.sport.orEmpty))

/-- The per-key default direction of the sort header: ascending for `power_rank`,
`sport` and `country`, descending for every other key. -/
def defaultDir : SortKey → Dir
  | .num .power_rank => .asc
  | .text .sport => .asc
  | .text .country => .asc
  | _ => .desc

/-- The opposite direction. -/
def Dir.flip : Dir → Dir
  | .asc => .desc
  | .desc => .asc

/-! ## Synchroniser and action dispatch -/

/-- The constant `API_URL`. -/
def API_URL : String :=
  "https://script.google.com/macros/s/AKfycbyv84H4pq292JE0eayjafeO2rXul484Vazwilfx1g_zOXrUsebZUvq1Et_DXgmHSdDN/exec"

/-- A request sent with `fetch`: its method, its `route` and the fields of its body. -/
structure Request where
  method : String
  route : String
  payload : List (String × String)
  deriving DecidableEq

/-- What the page holds: the global `STATE`, the text of the elements the code writes to,
the inputs it reads, the requests issued so far and the timers registered. -/
structure World where
  STATE : Option Snapshot
  statusPill : String
  pickMsg : String
  pickMsgClass : String
  adminMsg : String
  adminMsgClass : String
  playerSelect : String
  pinInput : String
  sportInput : String
  countryInput : String
  adminPin : String
  requests : List Request
  intervals : List Nat
  wired : Bool
  consoleErrors : Nat
  deriving DecidableEq

/-- The page before `start` runs. -/
def initialWorld : World where
  STATE := none
  statusPill := ""
  pickMsg := ""
  pickMsgClass := "msg"
  adminMsg := ""
  adminMsgClass := "msg"
  playerSelect := ""
  pinInput := ""
  sportInput := ""
  countryInput := ""
  adminPin := ""
  requests := []
  intervals := []
  wired := false
  consoleErrors := 0

/-- How an awaited request ends: `fetch` or `r.json()` throws, or a body is parsed. -/
inductive Reply (α : Type) where
  | threw
  | json (data : α)

/-- How a call ends: it returns (its promise fulfils) or it throws (its promise
rejects). -/
inductive Completion where
  | returned
  | threw
  deriving DecidableEq

/-- The body of the answer to a `POST`. -/
structure ActionResponse where
  ok : JSVal
  error : Option String
  state : Option Snapshot
  deriving DecidableEq

/-- The expression `res.error || fallback`. -/
def errorOr (error : Option String) (fallback : String) : String :=
  match error with
  | some e => if e ≠ "" then e else fallback
  | none => fallback

/-- The test `!API_URL || API_URL.startsWith("PASTE_")`. -/
def notConfigured (url : String) : Bool :=
  decide (url = "") || "PASTE_".toList.isPrefixOf url.toList

/-- The function `renderTop`, as far as the status pill goes; it throws when `STATE` is
not an object. -/
def renderTop (w : World) : World × Completion :=
  match w.STATE with
  | none => (w, .threw)
  | some S =>
    let st := match S.draft_status with
      | some d => if d ≠ "" then d else "—"
      | none => "—"
    ({ w with statusPill := if st = "OPEN" then "Draft: OPEN" else "Draft: CLOSED" },
      .returned)

/-- The function `loadState`, given how the request ends if it is issued and how the
render calls after `renderTop` end.  Those calls (`hydrateFilters`, `renderLeaderboard`,
`renderPairsTable`, `renderTeams`) read `STATE` and write to the page only; one of them
can throw, as `hydrateFilters` does when the host's sort hands a `null` sport to
`a.localeCompare(b)` as `a`, and then `loadState` throws with `STATE` already replaced. -/
def loadState (url : String) (reply : Reply Snapshot) (renders : Completion) (w : World) :
    World × Completion :=
  if notConfigured url then
    ({ w with statusPill := "Set API_URL in app.js" }, .returned)
  else
    let w := { w with requests := w.requests ++
      [{ method := "GET", route := "state", payload := [] }] }
    match reply with
    | .threw => (w, .threw)
    | .json data =>
      if !data.ok.truthy then
        ({ w with statusPill := "Error loading state",
                  consoleErrors := w.consoleErrors + 1 }, .returned)
      else
        match renderTop { w with STATE := some data } with
        | (w, .threw) => (w, .threw)
        | (w, .returned) => (w, renders)

/-- The function `submitPick`, given how the request ends.  The success path closes
with `renderTop` and the render calls after it, which write to the page only. -/
def submitPick (reply : Reply ActionResponse) (w : World) : World × Completion :=
  let player_id := w.playerSelect
  let pin := w.pinInput.trim
  let sport := w.sportInput.trim
  let country := w.countryInput.trim
  let w := { w with pickMsg := "Submitting…", pickMsgClass := "msg" }
  let w := { w with requests := w.requests ++
    [{ method := "POST", route := "pick",
       payload := [("player_id", player_id), ("pin", pin), ("sport", sport),
         ("country", country)] }] }
  match reply with
  | .threw => (w, .threw)
  | .json res =>
    if !res.ok.truthy then
      ({ w with pickMsg := errorOr res.error "Pick rejected.", pickMsgClass := "msg err" },
        .returned)
    else
      renderTop { w with STATE := res.state, pickMsg := "Pick accepted ✅",
                         pickMsgClass := "msg ok", pinInput := "" }

/-- The function `showAdminMsg`. -/
def showAdminMsg (res : ActionResponse) (w : World) : World × Completion :=
  if !res.ok.truthy then
    ({ w with adminMsg := errorOr res.error "Admin action failed.",
              adminMsgClass := "msg err" }, .returned)
  else
    renderTop { w with STATE := res.state, adminMsg := "Done ✅", adminMsgClass := "msg ok" }

/-- The admin actions wired to the four admin buttons. -/
inductive AdminAction where
  | undo
  | reset
  | setStatus (draft_status : String)
  deriving DecidableEq

/-- The route and body of an admin action. -/
def AdminAction.request (a : AdminAction) (pin : String) : Request :=
  match a with
  | .undo => { method := "POST", route := "undo", payload := [("pin", pin)] }
  | .reset => { method := "POST", route := "reset", payload := [("pin", pin)] }
  | .setStatus d =>
    { method := "POST", route := "set_status", payload := [("pin", pin), ("draft_status", d)] }

/-- The click handler of an admin button: `showAdminMsg(await apiPost(route, body))`. -/
def adminClick (a : AdminAction) (reply : Reply ActionResponse) (w : World) :
    World × Completion :=
  let w := { w with requests := w.requests ++ [a.request w.adminPin.trim] }
  match reply with
  | .threw => (w, .threw)
  | .json res => showAdminMsg res w

/-- The function `wireUI`: the listeners are attached. -/
def wireUI (w : World) : World :=
  { w with wired := true }

/-- The function `start`, given how the first request and the render calls end:
`wireUI()`, then `await loadState()`, then `setInterval(..., 4000)`. -/
def start (url : String) (reply : Reply Snapshot) (renders : Completion) (w : World) :
    World × Completion :=
  let w := wireUI w
  match loadState url reply renders w with
  | (w, .threw) => (w, .threw)
  | (w, .returned) => ({ w with intervals := w.intervals ++ [4000] }, .returned)

/-- One tick of the timer: `loadState().catch(()=>{})`. -/
def pollTick (url : String) (reply : Reply Snapshot) (renders : Completion) (w : World) :
    World × Completion :=
  ((loadState url reply renders w).1, .returned)

/-! ## The documented escaping -/

/-- The five characters `escapeHtml` replaces: `&`, `<`, `>`, the double quote and the
single quote. -/
def isSpecial (c : Char) : Bool :=
  c = '&' || c = '<' || c = '>' || c = Char.ofNat 34 || c = Char.ofNat 39

/-- The five entities `escapeHtml` writes. -/
def entities : List String :=
  ["&amp;", "&lt;", "&gt;", "&quot;", "&#039;"]

/-! ## Consistent comparators and the sort -/

theorem IsCmp.zero_symm {α : Type} {c : α → α → Int} (h : IsCmp c) (a b : α) :
    c a b = 0 ↔ c b a = 0 := by
  have h1 := h.swap_neg a b
  have h2 := h.swap_neg b a
  constructor <;> intro h0 <;> omega

theorem IsCmp.total {α : Type} {c : α → α → Int} (h : IsCmp c) (a b : α) :
    c a b ≤ 0 ∨ c b a ≤ 0 := by
  have h2 := h.swap_neg b a
  by_cases h0 : c a b ≤ 0
  · exact Or.inl h0
  · right; omega

theorem IsCmp.neg_of_neg_of_le {α : Type} {c : α → α → Int} (h : IsCmp c) {a b d : α}
    (hab : c a b < 0) (hbd : c b d ≤ 0) : c a d < 0 := by
  by_contra hcon
  have hda : c d a ≤ 0 := by
    have := h.swap_neg d a
    have := h.swap_neg a d
    omega
  have hba := h.trans_le b d a hbd hda
  have := h.swap_neg a b
  omega

theorem IsCmp.neg_of_le_of_neg {α : Type} {c : α → α → Int} (h : IsCmp c) {a b d : α}
    (hab : c a b ≤ 0) (hbd : c b d < 0) : c a d < 0 := by
  by_contra hcon
  have hda : c d a ≤ 0 := by
    have := h.swap_neg d a
    have := h.swap_neg a d
    omega
  have hdb := h.trans_le d a b hda hab
  have := h.swap_neg b d
  omega

theorem IsCmp.zero_trans {α : Type} {c : α → α → Int} (h : IsCmp c) {a b d : α}
    (hab : c a b = 0) (hbd : c b d = 0) : c a d = 0 := by
  have h1 := h.trans_le a b d (by omega) (by omega)
  have hba := (h.zero_symm a b).1 hab
  have hdb := (h.zero_symm b d).1 hbd
  have h2 := h.trans_le d b a (by omega) (by omega)
  have := h.swap_neg a d
  omega

theorem IsCmp.lex {α : Type} {c1 c2 : α → α → Int} (h1 : IsCmp c1) (h2 : IsCmp c2) :
    IsCmp (lexCmp c1 c2) := by
  constructor
  · intro a b
    have s1 := h1.swap_neg a b
    have s1r := h1.swap_neg b a
    have s2 := h2.swap_neg a b
    unfold lexCmp
    by_cases ha : c1 a b = 0
    · have hb : c1 b a = 0 := (h1.zero_symm a b).1 ha
      simp [ha, hb, s2]
    · have hb : c1 b a ≠ 0 := fun hb0 => ha ((h1.zero_symm a b).2 hb0)
      simp only [ne_eq, ha, hb, not_false_eq_true, if_true]
      exact s1
  · intro a b d hab hbd
    unfold lexCmp at hab hbd ⊢
    by_cases ha : c1 a b = 0
    · by_cases hb : c1 b d = 0
      · have hd : c1 a d = 0 := h1.zero_trans ha hb
        simp only [ha, hb, hd, ne_eq, not_true_eq_false, if_false] at hab hbd ⊢
        exact h2.trans_le a b d hab hbd
      · simp only [ha, hb, ne_eq, not_true_eq_false, not_false_eq_true, if_false,
          if_true] at hab hbd
        have hlt : c1 a d < 0 := h1.neg_of_le_of_neg (le_of_eq ha) (by omega)
        have hne : c1 a d ≠ 0 := by omega
        simp only [ne_eq, hne, not_false_eq_true, if_true]
        omega
    · simp only [ha, ne_eq, not_false_eq_true, if_true] at hab
      have hbd1 : c1 b d ≤ 0 := by
        by_cases hb : c1 b d = 0
        · omega
        · simp only [hb, ne_eq, not_false_eq_true, if_true] at hbd
          exact hbd
      have hlt : c1 a d < 0 := h1.neg_of_neg_of_le (by omega) hbd1
      have hne : c1 a d ≠ 0 := by omega
      simp only [ne_eq, hne, not_false_eq_true, if_true]
      omega

theorem IsCmp.comap {α β : Type} {c : β → β → Int} (h : IsCmp c) (f : α → β) :
    IsCmp (fun a b => c (f a) (f b)) :=
  ⟨fun a b => h.swap_neg (f a) (f b), fun a b d => h.trans_le (f a) (f b) (f d)⟩

theorem IsCmp.flip {α : Type} {c : α → α → Int} (h : IsCmp c) :
    IsCmp (fun a b => c b a) := by
  constructor
  · intro a b
    have := h.swap_neg b a
    have := h.swap_neg a b
    constructor <;> intro _ <;> omega
  · intro a b d hab hbd
    exact h.trans_le d b a hbd hab

/-- A comparator that reports the order of a key in a linear order is consistent. -/
theorem IsCmp.of_key {α β : Type} [LinearOrder β] (c : α → α → Int) (f : α → β)
    (hlt : ∀ a b, c a b < 0 ↔ f a < f b) (hgt : ∀ a b, 0 < c a b ↔ f b < f a) :
    IsCmp c := by
  constructor
  · intro a b
    rw [hlt, hgt]
  · intro a b d hab hbd
    have h1 : ¬ f b < f a := fun h => by
      have := (hgt a b).2 h
      omega
    have h2 : ¬ f d < f b := fun h => by
      have := (hgt b d).2 h
      omega
    have h3 : ¬ f d < f a := fun h => h1 (lt_of_le_of_lt (not_lt.1 h2) h)
    by_contra hcon
    exact h3 ((hgt a d).1 (by omega))

theorem jsSortInsert_perm {α : Type} (cmp : α → α → JSNum) (x : α) (l : List α) :
    (jsSortInsert cmp x l).Perm (x :: l) := by
  induction l with
  | nil => exact List.Perm.refl _
  | cons y ys ih =>
    unfold jsSortInsert
    split
    · exact List.Perm.refl _
    · exact (List.Perm.cons y ih).trans (List.Perm.swap x y ys)

theorem jsSort_perm {α : Type} (cmp : α → α → JSNum) (l : List α) :
    (jsSort cmp l).Perm l := by
  induction l with
  | nil => exact List.Perm.refl _
  | cons x xs ih =>
    unfold jsSort
    exact (jsSortInsert_perm cmp x _).trans (List.Perm.cons x ih)

theorem jsSortInsert_pairwise {α : Type} (cmp : α → α → JSNum)
    (h : IsCmp (fun a b => (cmp a b).sortOrder)) (x : α) (l : List α)
    (hl : l.Pairwise (fun a b => (cmp a b).sortOrder ≤ 0)) :
    (jsSortInsert cmp x l).Pairwise (fun a b => (cmp a b).sortOrder ≤ 0) := by
  induction l with
  | nil => simp [jsSortInsert]
  | cons y ys ih =>
    unfold jsSortInsert
    rw [List.pairwise_cons] at hl
    split
    · rename_i hxy
      refine List.Pairwise.cons ?_ (List.Pairwise.cons hl.1 hl.2)
      intro z hz
      rcases List.mem_cons.1 hz with rfl | hz
      · exact hxy
      · exact h.trans_le x y z hxy (hl.1 z hz)
    · rename_i hxy
      refine List.Pairwise.cons ?_ (ih hl.2)
      intro z hz
      have hz2 : z ∈ x :: ys := (jsSortInsert_perm cmp x ys).subset hz
      rcases List.mem_cons.1 hz2 with rfl | hz2
      · rcases h.total z y with h1 | h1
        · exact absurd h1 hxy
        · exact h1
      · exact hl.1 z hz2

theorem jsSort_pairwise {α : Type} (cmp : α → α → JSNum)
    (h : IsCmp (fun a b => (cmp a b).sortOrder)) (l : List α) :
    (jsSort cmp l).Pairwise (fun a b => (cmp a b).sortOrder ≤ 0) := by
  induction l with
  | nil => simp [jsSort]
  | cons x xs ih =>
    unfold jsSort
    exact jsSortInsert_pairwise cmp h x _ ih

theorem IsCmp.sign {α : Type} {c : α → α → Int} (h : IsCmp c) :
    IsCmp (fun a b => signInt (c a b)) := by
  constructor
  · intro a b
    have := h.swap_neg a b
    simp only [signInt]
    split_ifs <;> omega
  · intro a b d hab hbd
    have := h.trans_le a b d
    simp only [signInt] at hab hbd ⊢
    split_ifs at hab hbd ⊢ <;> omega

/-! ## The numeric comparator -/

theorem sortValue_cases (k : NumKey) (a : Row) :
    sortValue k a = JSNum.negInf ∨ ∃ q, sortValue k a = JSNum.fin q := by
  unfold sortValue
  cases h : (a.numAt k).toNumber <;> simp [JSNum.isFinite]

theorem JSNum.sortOrder_mul_one (v : JSNum) :
    (JSNum.mul v (JSNum.fin 1)).sortOrder = v.sortOrder := by
  cases v <;> simp [JSNum.mul, JSNum.sortOrder]

theorem JSNum.sortOrder_mul_neg_one (v : JSNum) :
    (JSNum.mul v (JSNum.fin (-1))).sortOrder = - v.sortOrder := by
  cases v with
  | nan => simp [JSNum.mul, JSNum.sortOrder]
  | negInf => norm_num [JSNum.mul, JSNum.sortOrder]
  | posInf => norm_num [JSNum.mul, JSNum.sortOrder]
  | fin q =>
    simp only [JSNum.mul, JSNum.sortOrder, mul_neg, mul_one, Left.neg_neg_iff,
      Left.neg_pos_iff]
    split_ifs <;> first | rfl | (exfalso; linarith)

theorem JSNum.sub_sortOrder_neg (x y : JSNum) (hx : x ≠ .nan) (hy : y ≠ .nan) :
    (JSNum.sub x y).sortOrder < 0 ↔ x.ext < y.ext := by
  cases x <;> cases y <;> simp [JSNum.sub, JSNum.sortOrder, JSNum.ext] at hx hy ⊢
  · exact WithBot.coe_lt_coe.2 (WithTop.coe_lt_top _)
  · split_ifs with h1 h2 <;> simp [h1]

theorem JSNum.sub_sortOrder_swap (x y : JSNum) :
    (JSNum.sub y x).sortOrder = - (JSNum.sub x y).sortOrder := by
  cases x <;> cases y <;> simp [JSNum.sub, JSNum.sortOrder]
  split_ifs <;> first | rfl | (exfalso; linarith)

theorem JSNum.sub_sortOrder_pos (x y : JSNum) (hx : x ≠ .nan) (hy : y ≠ .nan) :
    0 < (JSNum.sub x y).sortOrder ↔ y.ext < x.ext := by
  rw [← JSNum.sub_sortOrder_neg y x hy hx, JSNum.sub_sortOrder_swap x y]
  omega

theorem JSNum.lt_iff_ext (x y : JSNum) (hx : x ≠ .nan) (hy : y ≠ .nan) :
    JSNum.lt x y = true ↔ x.ext < y.ext := by
  cases x <;> cases y <;> simp [JSNum.lt, JSNum.ext] at hx hy ⊢
  exact WithBot.coe_lt_coe.2 (WithTop.coe_lt_top _)

theorem JSNum.strictEq_iff_ext (x y : JSNum) (hx : x ≠ .nan) (hy : y ≠ .nan) :
    JSNum.strictEq x y = true ↔ x.ext = y.ext := by
  cases x <;> cases y <;> simp [JSNum.strictEq, JSNum.ext] at hx hy ⊢

theorem sortValue_ne_nan (k : NumKey) (a : Row) : sortValue k a ≠ JSNum.nan := by
  rcases sortValue_cases k a with h | ⟨q, h⟩ <;> simp [h]

theorem keyCmp_asc_isCmp (k : NumKey) : IsCmp (keyCmp k .asc) :=
  IsCmp.of_key (keyCmp k .asc) (fun a => (sortValue k a).ext)
    (fun a b => JSNum.sub_sortOrder_neg _ _ (sortValue_ne_nan k a) (sortValue_ne_nan k b))
    (fun a b => JSNum.sub_sortOrder_pos _ _ (sortValue_ne_nan k a) (sortValue_ne_nan k b))

theorem keyCmp_isCmp (k : NumKey) (d : Dir) : IsCmp (keyCmp k d) := by
  cases d
  · exact keyCmp_asc_isCmp k
  · exact (keyCmp_asc_isCmp k).flip

theorem keyCmp_eq_zero_iff (k : NumKey) (d : Dir) (a b : Row) :
    keyCmp k d a b = 0 ↔ JSNum.strictEq (sortValue k a) (sortValue k b) = true := by
  have ha := sortValue_ne_nan k a
  have hb := sortValue_ne_nan k b
  rw [JSNum.strictEq_iff_ext _ _ ha hb]
  have h1 := JSNum.sub_sortOrder_neg _ _ ha hb
  have h2 := JSNum.sub_sortOrder_pos _ _ ha hb
  have h3 := JSNum.sub_sortOrder_swap (sortValue k a) (sortValue k b)
  cases d <;> simp only [keyCmp]
  · constructor
    · intro h0
      exact le_antisymm (not_lt.1 (fun h => by have := h2.2 h; omega))
        (not_lt.1 (fun h => by have := h1.2 h; omega))
    · intro he
      rw [he] at h1 h2
      have := lt_irrefl (sortValue k b).ext
      by_contra hne
      rcases lt_or_gt_of_ne hne with h | h
      · exact this (h1.1 h)
      · exact this (h2.1 h)
  · rw [h3]
    constructor
    · intro h0
      exact le_antisymm (not_lt.1 (fun h => by have := h2.2 h; omega))
        (not_lt.1 (fun h => by have := h1.2 h; omega))
    · intro he
      rw [he] at h1 h2
      have := lt_irrefl (sortValue k b).ext
      by_contra hne
      have hne2 : (JSNum.sub (sortValue k a) (sortValue k b)).sortOrder ≠ 0 := by omega
      rcases lt_or_gt_of_ne hne2 with h | h
      · exact this (h1.1 h)
      · exact this (h2.1 h)

theorem tieBreak_isCmp (H : Host) (hH : H.Lawful) : IsCmp (tieBreak H) := by
  have hc : IsCmp H.localeCompare := ⟨hH.swap_neg, hH.trans_le⟩
  exact IsCmp.lex (hc.comap (fun r : Row => r.p.sport.toStr))
    (hc.comap (fun r : Row => r.p.country.toStr))

theorem JSNum.sortOrder_fin_int (t : Int) :
    (JSNum.fin (t : ℚ)).sortOrder = signInt t := by
  simp [JSNum.sortOrder, signInt]

theorem numericCompare_sortOrder (H : Host) (k : NumKey) (d : Dir) (a b : Row) :
    (numericCompare H k d a b).sortOrder =
      lexCmp (keyCmp k d) (fun a b => signInt (tieBreak H a b)) a b := by
  unfold numericCompare lexCmp
  by_cases he : JSNum.strictEq (sortValue k a) (sortValue k b) = true
  · have h0 := (keyCmp_eq_zero_iff k d a b).2 he
    simp [he, h0, JSNum.sortOrder_fin_int]
  · have h0 : keyCmp k d a b ≠ 0 := fun h => he ((keyCmp_eq_zero_iff k d a b).1 h)
    simp only [he, h0, ne_eq, not_false_eq_true, if_true, if_false, Bool.false_eq_true]
    cases d
    · simp [dirFactor, keyCmp, JSNum.sortOrder_mul_one]
    · simp only [dirFactor, keyCmp, JSNum.sortOrder_mul_neg_one]
      exact (JSNum.sub_sortOrder_swap _ _).symm

theorem numericCompare_isCmp (H : Host) (hH : H.Lawful) (k : NumKey) (d : Dir) :
    IsCmp (fun a b => (numericCompare H k d a b).sortOrder) := by
  have h := IsCmp.lex (keyCmp_isCmp k d) (tieBreak_isCmp H hH).sign
  have he : (fun a b => (numericCompare H k d a b).sortOrder) =
      lexCmp (keyCmp k d) (fun a b => signInt (tieBreak H a b)) := by
    funext a b
    exact numericCompare_sortOrder H k d a b
  rw [he]
  exact h

theorem numericOrdered_of_le (H : Host) (k : NumKey) (d : Dir) (a b : Row)
    (h : (numericCompare H k d a b).sortOrder ≤ 0) : numericOrdered H k d a b := by
  rw [numericCompare_sortOrder] at h
  unfold lexCmp at h
  have ha := sortValue_ne_nan k a
  have hb := sortValue_ne_nan k b
  by_cases h0 : keyCmp k d a b = 0
  · right
    refine ⟨(keyCmp_eq_zero_iff k d a b).1 h0, ?_⟩
    simp only [h0, ne_eq, not_true_eq_false, if_false] at h
    have ht : tieBreak H a b ≤ 0 := by
      simp only [signInt] at h
      split_ifs at h <;> omega
    unfold tieBreak at ht
    unfold pairAfter
    simp only [ne_eq] at ht
    split_ifs at ht <;> omega
  · left
    simp only [h0, ne_eq, not_false_eq_true, if_true] at h
    have hlt : keyCmp k d a b < 0 := by omega
    cases d
    · exact (JSNum.lt_iff_ext _ _ ha hb).2 ((JSNum.sub_sortOrder_neg _ _ ha hb).1 hlt)
    · exact (JSNum.lt_iff_ext _ _ hb ha).2 ((JSNum.sub_sortOrder_neg _ _ hb ha).1 hlt)

/-! ## The text comparator -/

theorem pointsOf_ne_nan (a : Row) : pointsOf a ≠ JSNum.nan := by
  unfold pointsOf NumField.orZeroNumber
  cases a.p.projected_points with
  | absent => simp [NumField.truthy, NumField.isText]
  | null => simp [NumField.truthy, NumField.isText]
  | empty => simp [NumField.truthy, NumField.isText]
  | text s => simp [NumField.isText]
  | num n =>
    cases n <;> simp [NumField.truthy, NumField.toNumber, JSNum.truthy, NumField.isText]
    split_ifs <;> simp

theorem pointsOf_eq (a : Row) (ha : a.p.projected_points.isText = false) :
    pointsOf a = a.p.projected_points.orZeroNumber := by
  simp [pointsOf, ha]

theorem textCompareNum_eq (H : Host) (k : TextKey) (d : Dir) (a b : Row)
    (ha : a.p.projected_points.isText = false) (hb : b.p.projected_points.isText = false) :
    textCompareNum H k d a b = textCompare H k d a b := by
  unfold textCompareNum textCompare
  rw [pointsOf_eq a ha, pointsOf_eq b hb]

theorem pointsCmp_isCmp : IsCmp pointsCmp := by
  have h : IsCmp (fun a b : Row => (JSNum.sub (pointsOf a) (pointsOf b)).sortOrder) :=
    IsCmp.of_key _ (fun a => (pointsOf a).ext)
      (fun a b => JSNum.sub_sortOrder_neg _ _ (pointsOf_ne_nan _) (pointsOf_ne_nan _))
      (fun a b => JSNum.sub_sortOrder_pos _ _ (pointsOf_ne_nan _) (pointsOf_ne_nan _))
  exact h.flip

theorem textKeyCmp_isCmp (H : Host) (hH : H.Lawful) (k : TextKey) (d : Dir) :
    IsCmp (textKeyCmp H k d) := by
  have hc : IsCmp H.localeCompare := ⟨hH.swap_neg, hH.trans_le⟩
  cases d
  · exact hc.comap (fun r : Row => (r.textAt k).orEmpty)
  · exact (hc.comap (fun r : Row => (r.textAt k).orEmpty)).flip

theorem JSNum.sortOrder_fin_int_neg (t : Int) :
    (JSNum.fin ((t : ℚ) * -1)).sortOrder = signInt (-t) := by
  have h1 : ((t : ℚ) * -1 < 0) ↔ (-t < 0) := by
    rw [mul_neg_one, Left.neg_neg_iff, Left.neg_neg_iff]
    exact Int.cast_pos
  have h2 : (0 < (t : ℚ) * -1) ↔ (0 < -t) := by
    rw [mul_neg_one, Left.neg_pos_iff, Left.neg_pos_iff]
    exact Int.cast_lt_zero
  simp only [JSNum.sortOrder, signInt, h1, h2]

theorem textCompareNum_sortOrder (H : Host) (hH : H.Lawful) (k : TextKey) (d : Dir)
    (a b : Row) :
    (textCompareNum H k d a b).sortOrder =
      lexCmp (fun a b => signInt (textKeyCmp H k d a b)) pointsCmp a b := by
  have hs := hH.swap_neg (a.textAt k).orEmpty (b.textAt k).orEmpty
  have hs2 := hH.swap_neg (b.textAt k).orEmpty (a.textAt k).orEmpty
  unfold textCompareNum lexCmp pointsCmp
  by_cases hc : H.localeCompare (a.textAt k).orEmpty (b.textAt k).orEmpty = 0
  · have h0 : textKeyCmp H k d a b = 0 := by
      cases d <;> simp only [textKeyCmp]
      · exact hc
      · omega
    simp [hc, h0, signInt]
  · simp only [ne_eq, hc, not_false_eq_true, if_true]
    cases d
    · have hne : signInt (H.localeCompare (a.textAt k).orEmpty (b.textAt k).orEmpty) ≠ 0 := by
        simp only [signInt]
        split_ifs <;> omega
      simp only [textKeyCmp, dirFactor, mul_one, JSNum.sortOrder_fin_int]
      rw [if_pos hne]
    · have hne : signInt (H.localeCompare (b.textAt k).orEmpty (a.textAt k).orEmpty) ≠ 0 := by
        simp only [signInt]
        split_ifs <;> omega
      simp only [textKeyCmp, dirFactor, JSNum.sortOrder_fin_int_neg]
      rw [if_pos hne]
      simp only [signInt]
      split_ifs <;> omega

theorem textCompareNum_isCmp (H : Host) (hH : H.Lawful) (k : TextKey) (d : Dir) :
    IsCmp (fun a b => (textCompareNum H k d a b).sortOrder) := by
  have h := IsCmp.lex (textKeyCmp_isCmp H hH k d).sign pointsCmp_isCmp
  have he : (fun a b => (textCompareNum H k d a b).sortOrder) =
      lexCmp (fun a b => signInt (textKeyCmp H k d a b)) pointsCmp := by
    funext a b
    exact textCompareNum_sortOrder H hH k d a b
  rw [he]
  exact h

theorem JSNum.ge_iff_ext (x y : JSNum) (hx : x ≠ .nan) (hy : y ≠ .nan) :
    JSNum.ge x y = true ↔ ¬ x.ext < y.ext := by
  rw [← JSNum.lt_iff_ext x y hx hy]
  cases x <;> cases y <;> simp [JSNum.ge] at hx hy ⊢

theorem textOrdered_of_le (H : Host) (hH : H.Lawful) (k : TextKey) (d : Dir) (a b : Row)
    (ha : a.p.projected_points.isText = false) (hb : b.p.projected_points.isText = false)
    (h : (textCompareNum H k d a b).sortOrder ≤ 0) : textOrdered H k d a b := by
  rw [textCompareNum_sortOrder H hH] at h
  unfold lexCmp at h
  have hs := hH.swap_neg (a.textAt k).orEmpty (b.textAt k).orEmpty
  have hs2 := hH.swap_neg (b.textAt k).orEmpty (a.textAt k).orEmpty
  constructor
  · cases d <;> simp only [textKeyCmp, signInt, ne_eq] at h ⊢ <;>
      split_ifs at h <;> omega
  · intro hc
    have h0 : textKeyCmp H k d a b = 0 := by
      cases d <;> simp only [textKeyCmp]
      · exact hc
      · omega
    simp only [h0, signInt, ne_eq] at h
    simp only [lt_self_iff_false, if_false, not_true_eq_false] at h
    rw [← pointsOf_eq a ha, ← pointsOf_eq b hb,
      JSNum.ge_iff_ext _ _ (pointsOf_ne_nan _) (pointsOf_ne_nan _)]
    intro hlt
    have := (JSNum.sub_sortOrder_pos _ _ (pointsOf_ne_nan b) (pointsOf_ne_nan a)).2 hlt
    unfold pointsCmp at h
    omega

theorem jsSortInsert_congr {α : Type} (c1 c2 : α → α → JSNum) (x : α) (l : List α)
    (h : ∀ y ∈ l, c1 x y = c2 x y) : jsSortInsert c1 x l = jsSortInsert c2 x l := by
  induction l with
  | nil => rfl
  | cons y ys ih =>
    unfold jsSortInsert
    rw [h y (List.mem_cons_self _ _), ih (fun z hz => h z (List.mem_cons_of_mem _ hz))]

/-- The sort reads the comparator on the elements of the list only. -/
theorem jsSort_congr {α : Type} (c1 c2 : α → α → JSNum) (l : List α)
    (h : ∀ x ∈ l, ∀ y ∈ l, c1 x y = c2 x y) : jsSort c1 l = jsSort c2 l := by
  induction l with
  | nil => rfl
  | cons x xs ih =>
    unfold jsSort
    rw [ih (fun a ha b hb => h a (List.mem_cons_of_mem _ ha) b (List.mem_cons_of_mem _ hb))]
    exact jsSortInsert_congr c1 c2 x _ (fun y hy =>
      h x (List.mem_cons_self _ _) y (List.mem_cons_of_mem _ ((jsSort_perm c2 xs).subset hy)))

/-! ## The reference host -/

theorem compareCodePoints_swap (a b : List Char) :
    compareCodePoints a b < 0 ↔ 0 < compareCodePoints b a := by
  induction a generalizing b with
  | nil => cases b <;> simp [compareCodePoints]
  | cons x xs ih =>
    cases b with
    | nil => simp [compareCodePoints]
    | cons y ys =>
      have := ih ys
      simp only [compareCodePoints]
      split_ifs <;> omega

theorem compareCodePoints_trans (a b c : List Char)
    (hab : compareCodePoints a b ≤ 0) (hbc : compareCodePoints b c ≤ 0) :
    compareCodePoints a c ≤ 0 := by
  induction a generalizing b c with
  | nil => cases c <;> simp [compareCodePoints]
  | cons x xs ih =>
    cases b with
    | nil => simp [compareCodePoints] at hab
    | cons y ys =>
      cases c with
      | nil => simp [compareCodePoints] at hbc
      | cons z zs =>
        have := ih ys zs
        simp only [compareCodePoints] at hab hbc ⊢
        split_ifs at hab hbc ⊢ <;> omega

theorem asciiHost_lawful : asciiHost.Lawful :=
  ⟨fun a b => compareCodePoints_swap a.toList b.toList,
   fun a b c => compareCodePoints_trans a.toList b.toList c.toList⟩

/-! ## The filter steps -/

theorem computeTakenSet_some (S : Snapshot) :
    computeTakenSet (some S) = S.taken_pair_ids.getD [] := by
  unfold computeTakenSet
  cases h : S.taken_pair_ids <;> simp [h]

theorem filterChosen_eq (F : Filters) (rows : List Row) :
    filterChosen F rows = rows.filter (fun r => F.showChosen || !r.isTaken) := by
  unfold filterChosen
  cases F.showChosen <;> simp

theorem filterSport_eq (F : Filters) (rows : List Row) :
    filterSport F rows =
      rows.filter (fun r => decide (F.sport = "") || r.p.sport.strictEqStr F.sport) := by
  unfold filterSport
  by_cases h : F.sport = "" <;> simp [h]

theorem filterSearch_eq (H : Host) (F : Filters) (rows : List Row) :
    filterSearch H F rows =
      rows.filter (fun r => decide (F.search = "") ||
        (caseInsensitiveIn H F.search r.p.country.orEmpty ||
          caseInsensitiveIn H F.search r.p.sport.orEmpty)) := by
  unfold filterSearch caseInsensitiveIn
  by_cases h : F.search = "" <;> simp [h]

/-- The three tests of the code on a row, taken together. -/
theorem filters_eq (H : Host) (F : Filters) (rows : List Row) :
    filterSearch H F (filterSport F (filterChosen F rows)) =
      rows.filter (fun r => (F.showChosen || !r.isTaken) &&
        (decide (F.sport = "") || r.p.sport.strictEqStr F.sport) &&
        (decide (F.search = "") ||
          (caseInsensitiveIn H F.search r.p.country.orEmpty ||
            caseInsensitiveIn H F.search r.p.sport.orEmpty))) := by
  rw [filterSearch_eq, filterSport_eq, filterChosen_eq, List.filter_filter,
    List.filter_filter]
  congr 1
  funext r
  simp only [Bool.and_assoc, Bool.and_comm, Bool.and_left_comm]

theorem strictEqStr_eq (v : TextField) (f : String) :
    v.strictEqStr f = decide (v = .str f) := by
  cases v <;> simp [TextField.strictEqStr]

theorem sortRows_perm (H : Host) (s : SortParams) (rows : List Row) :
    (sortRows H s rows).Perm rows := by
  unfold sortRows
  cases s.key <;> exact jsSort_perm _ _

/-! ## Claims about the sort -/

/-- C1: under a numeric sort key and either direction, any two rows of the table body
stand in the documented order: the earlier row has the strictly smaller (`asc`) or
strictly larger (`desc`) sort value, or the values are equal and the earlier row is not
after the later one in ascending `sport`-then-`country` order. -/
theorem numeric_sort_ordered (H : Host) (hH : H.Lawful) (S : Snapshot) (F : Filters)
    (k : NumKey) (d : Dir) :
    (pairsTableRows H S F { key := .num k, dir := d }).Pairwise (numericOrdered H k d) := by
  unfold pairsTableRows sortRows
  exact (jsSort_pairwise _ (numericCompare_isCmp H hH k d) _).imp
    (fun {a b} h => numericOrdered_of_le H k d a b h)

theorem numeric_sort_ordered_witness :
    asciiHost.Lawful ∧
    (pairsTableRows asciiHost demoSnapshot FILTERS SORT).Pairwise
      (numericOrdered asciiHost .projected_points .desc) :=
  ⟨asciiHost_lawful,
   numeric_sort_ordered asciiHost asciiHost_lawful demoSnapshot FILTERS .projected_points .desc⟩

/-- Off the defect of C4: when no projection has a text for its projected points, any two
rows under the sort key `sport` or `country` are ordered by that text in the requested
direction and, on texts that collate as equal, by descending projected points. -/
theorem text_sort_ordered_of_numeric (H : Host) (hH : H.Lawful) (S : Snapshot)
    (F : Filters) (k : TextKey) (d : Dir)
    (hS : ∀ p ∈ S.projections.getD [], p.projected_points.isText = false) :
    (pairsTableRows H S F { key := .text k, dir := d }).Pairwise (textOrdered H k d) := by
  have hrows : ∀ r ∈ filterSearch H F (filterSport F (filterChosen F
      (annotate (computeTakenSet (some S)) S))), r.p.projected_points.isText = false := by
    intro r hr
    rw [filters_eq] at hr
    have hr2 := (List.mem_filter.1 hr).1
    unfold annotate at hr2
    obtain ⟨p, hp, rfl⟩ := List.mem_map.1 hr2
    exact hS p hp
  unfold pairsTableRows sortRows
  simp only
  rw [← jsSort_congr (textCompareNum H k d) (textCompare H k d) _
    (fun x hx y hy => textCompareNum_eq H k d x y (hrows x hx) (hrows y hy))]
  refine (jsSort_pairwise _ (textCompareNum_isCmp H hH k d) _).imp_of_mem ?_
  intro a b ha hb h
  exact textOrdered_of_le H hH k d a b
    (hrows a ((jsSort_perm _ _).subset ha)) (hrows b ((jsSort_perm _ _).subset hb)) h

/-- C4: the code at the failing input.  Three rows of one sport with projected points `5`,
the text `"N/A"` and `7`, sorted by `sport` ascending, keep their order: both comparisons
with the text row give `NaN`, read as a tie, so the row with `5` stays before the row
with `7`, and the rows are not in order of descending projected points. -/
theorem text_tiebreak_breaks_on_text_points :
    (textCompare asciiHost .sport .asc
      { p := { pair_id := "b", sport := .str "skiing", country := .str "swe",
               power_rank := .num (.fin 2), projected_points := .text "N/A",
               num_medals := .num (.fin 1), last_year_score := .num (.fin 1) },
        isTaken := false }
      { p := { pair_id := "c", sport := .str "skiing", country := .str "sui",
               power_rank := .num (.fin 3), projected_points := .num (.fin 7),
               num_medals := .num (.fin 1), last_year_score := .num (.fin 1) },
        isTaken := false }) = JSNum.nan ∧
    (pairsTableRows asciiHost textPointsSnapshot FILTERS
        { key := .text .sport, dir := .asc }).map
      (fun r => (r.p.pair_id, r.p.projected_points))
      = [("a", .num (.fin 5)), ("b", .text "N/A"), ("c", .num (.fin 7))] ∧
    ¬ (pairsTableRows asciiHost textPointsSnapshot FILTERS
        { key := .text .sport, dir := .asc }).Pairwise (textOrdered asciiHost .sport .asc) := by
  refine ⟨by with_unfolding_all decide, by with_unfolding_all decide, ?_⟩
  have hrows : pairsTableRows asciiHost textPointsSnapshot FILTERS
      { key := .text .sport, dir := .asc } =
      (textPointsSnapshot.projections.getD []).map (fun p => { p := p, isTaken := false }) := by
    with_unfolding_all decide
  rw [hrows]
  intro hp
  have h := (List.pairwise_cons.1 hp).1 _ (List.mem_cons_of_mem _ (List.mem_cons_self _ _))
  have h2 := h.2 (by with_unfolding_all decide)
  revert h2
  with_unfolding_all decide

/-- C2: the code at the failing input.  With every row shown, the demo snapshot sorted by
`last_year_score` puts the row whose value is `null` (read as `0`) after the row with the
finite value `-5` when ascending and before it when descending; a row whose value is the
empty string is read as `0` as well. -/
theorem missing_value_sorts_as_zero :
    (pairsTableRows asciiHost demoSnapshot { sport := "", search := "", showChosen := true }
        { key := .num .last_year_score, dir := .asc }).map (fun r => r.p.pair_id)
      = ["P3", "P2", "P1"] ∧
    (pairsTableRows asciiHost demoSnapshot { sport := "", search := "", showChosen := true }
        { key := .num .last_year_score, dir := .desc }).map (fun r => r.p.pair_id)
      = ["P1", "P2", "P3"] ∧
    NumField.toNumber .null = JSNum.fin 0 ∧ NumField.toNumber .empty = JSNum.fin 0 := by
  refine ⟨?_, ?_, rfl, rfl⟩
  · with_unfolding_all decide
  · with_unfolding_all decide

/-! ## Claims about the sort header -/

/-- C7: a click on the header of the current key keeps the key and flips the direction,
so a second click on it restores `SORT`; a click on another key selects it with its
default direction, ascending for `power_rank`, `sport` and `country` and descending for
the rest; `SORT` starts as `projected_points` descending. -/
theorem clickSort_spec (s : SortParams) (k : SortKey) :
    clickSort s s.key = { key := s.key, dir := s.dir.flip } ∧
    clickSort (clickSort s s.key) s.key = s ∧
    (k ≠ s.key → clickSort s k = { key := k, dir := defaultDir k }) ∧
    Dir.flip .asc = .desc ∧ Dir.flip .desc = .asc ∧
    defaultDir (.num .power_rank) = .asc ∧ defaultDir (.text .sport) = .asc ∧
    defaultDir (.text .country) = .asc ∧ defaultDir (.num .projected_points) = .desc ∧
    defaultDir (.num .num_medals) = .desc ∧ defaultDir (.num .last_year_score) = .desc ∧
    SORT = { key := .num .projected_points, dir := .desc } := by
  refine ⟨?_, ?_, ?_, rfl, rfl, rfl, rfl, rfl, rfl, rfl, rfl, rfl⟩
  · obtain ⟨key, dir⟩ := s
    cases dir <;> simp [clickSort, Dir.flip]
  · obtain ⟨key, dir⟩ := s
    cases dir <;> simp [clickSort]
  · intro hk
    have hk2 : ¬ s.key = k := fun h => hk h.symm
    obtain ⟨key, dir⟩ := s
    rcases k with k | k <;> cases k <;> simp_all [clickSort, defaultDir]

/-! ## Claims about the synchroniser and the dispatcher -/

/-- C6: after `loadState` the held snapshot is the response object when the endpoint is
configured and the response has a truthy `ok`, and is the snapshot held before in every
other case (endpoint not configured, falsy `ok`, or the request or the JSON parsing
throws); when the endpoint is not configured no request is issued. -/
theorem loadState_keeps_snapshot_on_failure (url : String) (reply : Reply Snapshot)
    (renders : Completion) (w : World) :
    (loadState url reply renders w).1.STATE =
      (match reply with
        | .json data =>
          if notConfigured url = false ∧ data.ok.truthy = true then some data else w.STATE
        | .threw => w.STATE) ∧
    (if notConfigured url = true then (loadState url reply renders w).1.requests = w.requests
     else (loadState url reply renders w).1.requests =
       w.requests ++ [{ method := "GET", route := "state", payload := [] }]) ∧
    notConfigured "" = true ∧ notConfigured "PASTE_YOUR_URL_HERE" = true ∧
    notConfigured API_URL = false := by
  refine ⟨?_, ?_, by decide, by decide, by decide⟩
  · unfold loadState
    by_cases hc : notConfigured url = true
    · cases reply <;> simp [hc]
    · cases reply with
      | threw => simp [hc]
      | json data =>
        by_cases hok : data.ok.truthy = true
        · simp [hc, hok, renderTop]
        · simp [hc, hok]
  · unfold loadState
    by_cases hc : notConfigured url = true
    · simp [hc]
    · cases reply with
      | threw => simp [hc]
      | json data =>
        by_cases hok : data.ok.truthy = true
        · simp [hc, hok, renderTop]
        · simp [hc, hok]

/-- C5, as stated, fails: for the response `{ok: false, error: ""}` the message shown by
`submitPick` is the fallback text, not the server's error string. -/
theorem empty_error_shows_fallback :
    JSVal.truthy (.bool false) = false ∧
    (submitPick (.json { ok := .bool false, error := some "", state := none })
      initialWorld).1.pickMsg = "Pick rejected." ∧
    (submitPick (.json { ok := .bool false, error := some "", state := none })
      initialWorld).1.pickMsg ≠ "" ∧
    (adminClick .undo (.json { ok := .bool false, error := some "", state := none })
      initialWorld).1.adminMsg ≠ "" := by
  decide

/-- C5, amended: when the response of a pick or of an admin action has a falsy `ok`, the
held snapshot is the one held before, and the message shown is the server's error string
when that string is present and not empty, and the fixed fallback text otherwise. -/
theorem failed_action_keeps_snapshot (w : World) (res : ActionResponse) (a : AdminAction)
    (hok : res.ok.truthy = false) :
    (submitPick (.json res) w).1.STATE = w.STATE ∧
    (adminClick a (.json res) w).1.STATE = w.STATE ∧
    (showAdminMsg res w).1.STATE = w.STATE ∧
    (submitPick (.json res) w).1.pickMsg =
      (match res.error with
        | some e => if e ≠ "" then e else "Pick rejected."
        | none => "Pick rejected.") ∧
    (adminClick a (.json res) w).1.adminMsg =
      (match res.error with
        | some e => if e ≠ "" then e else "Admin action failed."
        | none => "Admin action failed.") := by
  simp [submitPick, adminClick, showAdminMsg, hok, errorOr]

theorem failed_action_keeps_snapshot_witness :
    JSVal.truthy (.bool false) = false ∧
    (submitPick (.json { ok := .bool false, error := some "Invalid PIN", state := none })
      initialWorld).1.STATE = initialWorld.STATE ∧
    (submitPick (.json { ok := .bool false, error := some "Invalid PIN", state := none })
      initialWorld).1.pickMsg = "Invalid PIN" :=
  ⟨rfl,
   (failed_action_keeps_snapshot initialWorld
     { ok := .bool false, error := some "Invalid PIN", state := none } .undo rfl).1,
   (failed_action_keeps_snapshot initialWorld
     { ok := .bool false, error := some "Invalid PIN", state := none } .undo rfl).2.2.2.1⟩

/-- C9: the code at the failing input.  When the first request throws, `start` ends by
throwing and registers no timer, although the endpoint is configured; a timer tick with
the same failure returns normally. -/
theorem start_stops_when_first_fetch_throws :
    notConfigured API_URL = false ∧
    (start API_URL .threw .returned initialWorld).2 = .threw ∧
    (start API_URL .threw .returned initialWorld).1.intervals = [] ∧
    (pollTick API_URL .threw .returned initialWorld).2 = .returned ∧
    (start API_URL (.json demoSnapshot) .returned initialWorld).1.intervals = [4000] := by
  decide

/-! ## Claims about the filters -/

theorem pairsTableRows_perm (H : Host) (S : Snapshot) (F : Filters) (s : SortParams) :
    ((pairsTableRows H S F s).map (fun r => r.p)).Perm
      ((S.projections.getD []).filter (passesFilters H S F)) := by
  unfold pairsTableRows
  refine ((sortRows_perm H s _).map _).trans ?_
  rw [filters_eq, computeTakenSet_some]
  unfold annotate
  rw [List.filter_map, List.map_map]
  have hid : ((fun r : Row => r.p) ∘ fun p : Projection =>
      ({ p := p, isTaken := (S.taken_pair_ids.getD []).contains p.pair_id } : Row)) = id := by
    funext p
    rfl
  rw [hid, List.map_id]
  have hp : ((fun r : Row => (F.showChosen || !r.isTaken) &&
        (decide (F.sport = "") || r.p.sport.strictEqStr F.sport) &&
        (decide (F.search = "") ||
          (caseInsensitiveIn H F.search r.p.country.orEmpty ||
            caseInsensitiveIn H F.search r.p.sport.orEmpty))) ∘
      fun p : Projection =>
        ({ p := p, isTaken := (S.taken_pair_ids.getD []).contains p.pair_id } : Row)) =
      passesFilters H S F := by
    funext p
    simp only [Function.comp, passesFilters, strictEqStr_eq, List.contains, List.elem_eq_mem,
      Bool.or_comm, decide_not]
  rw [hp]

/-- C3: the projections of the rows in the table body are a permutation of the
projections that pass the three filters at once (not taken or `showChosen`; no sport
selected or exactly that sport; no search text or the text found, case ignored, in
`country` or `sport`); the three filter steps give the same rows in each of the six
orders of application; a taken projection is absent when `showChosen` is off and, if it
passes the other two filters, present when it is on. -/
theorem filters_are_intersection (H : Host) (S : Snapshot) (F : Filters) (s : SortParams) :
    ((pairsTableRows H S F s).map (fun r => r.p)).Perm
      ((S.projections.getD []).filter (passesFilters H S F)) ∧
    (∀ rows : List Row,
      filterSearch H F (filterChosen F (filterSport F rows)) =
        filterSearch H F (filterSport F (filterChosen F rows)) ∧
      filterSport F (filterSearch H F (filterChosen F rows)) =
        filterSearch H F (filterSport F (filterChosen F rows)) ∧
      filterSport F (filterChosen F (filterSearch H F rows)) =
        filterSearch H F (filterSport F (filterChosen F rows)) ∧
      filterChosen F (filterSport F (filterSearch H F rows)) =
        filterSearch H F (filterSport F (filterChosen F rows)) ∧
      filterChosen F (filterSearch H F (filterSport F rows)) =
        filterSearch H F (filterSport F (filterChosen F rows))) ∧
    (∀ p ∈ S.projections.getD [], p.pair_id ∈ S.taken_pair_ids.getD [] →
      F.showChosen = false → p ∉ (pairsTableRows H S F s).map (fun r => r.p)) ∧
    (∀ p ∈ S.projections.getD [], p.pair_id ∈ S.taken_pair_ids.getD [] →
      F.showChosen = true → (F.sport = "" ∨ p.sport = .str F.sport) →
      (F.search = "" ∨ caseInsensitiveIn H F.search p.country.orEmpty = true ∨
        caseInsensitiveIn H F.search p.sport.orEmpty = true) →
      p ∈ (pairsTableRows H S F s).map (fun r => r.p)) := by
  have hperm := pairsTableRows_perm H S F s
  refine ⟨hperm, ?_, ?_, ?_⟩
  · intro rows
    simp only [filterSearch_eq, filterSport_eq, filterChosen_eq, List.filter_filter]
    refine ⟨?_, ?_, ?_, ?_, ?_⟩ <;> congr 1 <;> funext r <;>
      simp only [Bool.and_assoc, Bool.and_comm, Bool.and_left_comm]
  · intro p _ htaken hshow hmem
    have := (List.mem_filter.1 (hperm.subset hmem)).2
    simp [passesFilters, htaken, hshow] at this
  · intro p hp htaken hshow hsport hsearch
    refine hperm.symm.subset (List.mem_filter.2 ⟨hp, ?_⟩)
    simp only [passesFilters, hshow, Bool.or_true, Bool.true_and, Bool.and_eq_true,
      Bool.or_eq_true, decide_eq_true_eq]
    exact ⟨hsport, hsearch⟩

/-! ## Claims about the taken flag -/

theorem mem_pairsTableRows (H : Host) (S : Snapshot) (F : Filters) (s : SortParams)
    (r : Row) (hr : r ∈ pairsTableRows H S F s) :
    r ∈ annotate (computeTakenSet (some S)) S := by
  unfold pairsTableRows at hr
  have h1 := (sortRows_perm H s _).subset hr
  rw [filters_eq] at h1
  exact (List.mem_filter.1 h1).1

/-- C8: `computeTakenSet` holds exactly the ids of `taken_pair_ids` (none when `STATE` is
`null` or has no `taken_pair_ids`); `renderPairsTable` throws when `STATE` is `null` and
otherwise renders the rows of the table body, each with `isTaken` true exactly when its
`pair_id` is in `taken_pair_ids` and with the Taken badge in its status cell when
`isTaken` is true and the Available badge otherwise. -/
theorem taken_flag_and_badge (H : Host) (STATE : Option Snapshot) (F : Filters)
    (s : SortParams) :
    (∀ id, id ∈ computeTakenSet STATE ↔
      ∃ S ids, STATE = some S ∧ S.taken_pair_ids = some ids ∧ id ∈ ids) ∧
    (match STATE with
      | none => renderPairsTable H none F s = .error "TypeError"
      | some S =>
        ∃ out, renderPairsTable H (some S) F s = .ok out ∧
          out.map (fun rc => rc.1) = pairsTableRows H S F s ∧
          ∀ rc ∈ out,
            (rc.1.isTaken = true ↔ rc.1.p.pair_id ∈ S.taken_pair_ids.getD []) ∧
            (S.taken_pair_ids = none → rc.1.isTaken = false) ∧
            rc.2 = "<td>" ++ badgeAvailable rc.1.isTaken ++ "</td>" ∧
            (rc.1.isTaken = true →
              badgeAvailable rc.1.isTaken = "<span class=\"badge no\">Taken</span>") ∧
            (rc.1.isTaken = false →
              badgeAvailable rc.1.isTaken = "<span class=\"badge ok\">Available</span>")) := by
  constructor
  · intro id
    unfold computeTakenSet
    cases STATE with
    | none => simp
    | some S =>
      cases h : S.taken_pair_ids with
      | none => simp [h]
      | some ids => simp [h]
  · cases STATE with
    | none => rfl
    | some S =>
      refine ⟨_, rfl, ?_, ?_⟩
      · rw [List.map_map]
        exact List.map_id _
      · intro rc hrc
        obtain ⟨r, hr, rfl⟩ := List.mem_map.1 hrc
        have hmem := mem_pairsTableRows H S F s r hr
        rw [computeTakenSet_some] at hmem
        unfold annotate at hmem
        obtain ⟨p, _, rfl⟩ := List.mem_map.1 hmem
        refine ⟨by simp, ?_, rfl, ?_, ?_⟩
        · intro hnone
          simp [hnone]
        · intro ht
          simp only at ht ⊢
          rw [ht]
          rfl
        · intro ht
          simp only at ht ⊢
          rw [ht]
          rfl

/-! ## Claims about `escapeHtml` -/

theorem amp_split (rest pre mid : List Char) (hrest : '&' ∉ rest)
    (h : '&' :: rest = pre ++ '&' :: mid) : pre = [] ∧ rest = mid := by
  cases pre with
  | nil =>
    simp only [List.nil_append, List.cons.injEq, true_and] at h
    exact ⟨rfl, h⟩
  | cons p ps =>
    simp only [List.cons_append, List.cons.injEq] at h
    exact absurd (h.2 ▸ List.mem_append_right ps (List.mem_cons_self _ _)) hrest

theorem escapeChar_amp (c : Char) (pre mid : List Char)
    (h : escapeChar c = pre ++ '&' :: mid) :
    ∃ e ∈ entities, e.toList = '&' :: mid := by
  unfold escapeChar at h
  split_ifs at h with h1 h2 h3 h4 h5
  · have h' : '&' :: ['a', 'm', 'p', ';'] = pre ++ '&' :: mid := h
    obtain ⟨_, hm⟩ := amp_split _ _ _ (by decide) h'
    exact ⟨"&amp;", by simp [entities], by rw [← hm]; rfl⟩
  · have h' : '&' :: ['l', 't', ';'] = pre ++ '&' :: mid := h
    obtain ⟨_, hm⟩ := amp_split _ _ _ (by decide) h'
    exact ⟨"&lt;", by simp [entities], by rw [← hm]; rfl⟩
  · have h' : '&' :: ['g', 't', ';'] = pre ++ '&' :: mid := h
    obtain ⟨_, hm⟩ := amp_split _ _ _ (by decide) h'
    exact ⟨"&gt;", by simp [entities], by rw [← hm]; rfl⟩
  · have h' : '&' :: ['q', 'u', 'o', 't', ';'] = pre ++ '&' :: mid := h
    obtain ⟨_, hm⟩ := amp_split _ _ _ (by decide) h'
    exact ⟨"&quot;", by simp [entities], by rw [← hm]; rfl⟩
  · have h' : '&' :: ['#', '0', '3', '9', ';'] = pre ++ '&' :: mid := h
    obtain ⟨_, hm⟩ := amp_split _ _ _ (by decide) h'
    exact ⟨"&#039;", by simp [entities], by rw [← hm]; rfl⟩
  · cases pre with
    | nil =>
      simp only [List.nil_append, List.cons.injEq] at h
      exact absurd h.1 h1
    | cons p ps =>
      simp only [List.cons_append, List.cons.injEq] at h
      have := h.2
      simp at this

theorem flatMap_escapeChar_amp (l pre post : List Char)
    (h : l.flatMap escapeChar = pre ++ '&' :: post) :
    ∃ e ∈ entities, e.toList <+: '&' :: post := by
  induction l generalizing pre with
  | nil => simp at h
  | cons c cs ih =>
    rw [List.flatMap_cons] at h
    rcases List.append_eq_append_iff.1 h with ⟨a, _, ha⟩ | ⟨m, hm, ha⟩
    · exact ih a ha
    · cases m with
      | nil =>
        simp only [List.nil_append] at ha
        exact ih [] ha.symm
      | cons x xs =>
        simp only [List.cons_append, List.cons.injEq] at ha
        obtain ⟨hx, hpost⟩ := ha
        subst hx
        obtain ⟨e, he, het⟩ := escapeChar_amp c pre xs hm
        refine ⟨e, he, ?_⟩
        rw [het, hpost]
        exact ⟨cs.flatMap escapeChar, rfl⟩

theorem escapeChar_clean (c x : Char) (hx : x ∈ escapeChar c) :
    x ≠ '<' ∧ x ≠ '>' ∧ x ≠ Char.ofNat 34 ∧ x ≠ Char.ofNat 39 := by
  unfold escapeChar at hx
  split_ifs at hx with h1 h2 h3 h4 h5
  · have h' : x ∈ ['&', 'a', 'm', 'p', ';'] := hx
    simp only [List.mem_cons, List.mem_singleton, List.not_mem_nil, or_false] at h'
    rcases h' with rfl | rfl | rfl | rfl | rfl <;> decide
  · have h' : x ∈ ['&', 'l', 't', ';'] := hx
    simp only [List.mem_cons, List.mem_singleton, List.not_mem_nil, or_false] at h'
    rcases h' with rfl | rfl | rfl | rfl <;> decide
  · have h' : x ∈ ['&', 'g', 't', ';'] := hx
    simp only [List.mem_cons, List.mem_singleton, List.not_mem_nil, or_false] at h'
    rcases h' with rfl | rfl | rfl | rfl <;> decide
  · have h' : x ∈ ['&', 'q', 'u', 'o', 't', ';'] := hx
    simp only [List.mem_cons, List.mem_singleton, List.not_mem_nil, or_false] at h'
    rcases h' with rfl | rfl | rfl | rfl | rfl | rfl <;> decide
  · have h' : x ∈ ['&', '#', '0', '3', '9', ';'] := hx
    simp only [List.mem_cons, List.mem_singleton, List.not_mem_nil, or_false] at h'
    rcases h' with rfl | rfl | rfl | rfl | rfl | rfl <;> decide
  · simp only [List.mem_singleton] at hx
    subst hx
    exact ⟨h2, h3, h4, h5⟩

theorem escapeChar_plain (c : Char) (h : isSpecial c = false) : escapeChar c = [c] := by
  unfold isSpecial at h
  simp only [Bool.or_eq_false_iff, decide_eq_false_iff_not] at h
  obtain ⟨⟨⟨⟨h1, h2⟩, h3⟩, h4⟩, h5⟩ := h
  simp [escapeChar, h1, h2, h3, h4, h5]

theorem flatMap_escapeChar_sublist (l : List Char) :
    (l.filter (fun c => !isSpecial c)).Sublist (l.flatMap escapeChar) := by
  induction l with
  | nil => simp
  | cons c cs ih =>
    rw [List.flatMap_cons]
    cases hc : isSpecial c
    · rw [List.filter_cons_of_pos (by simp [hc]), escapeChar_plain c hc]
      exact List.Sublist.cons₂ c ih
    · rw [List.filter_cons_of_neg (by simp [hc])]
      exact ih.trans (List.sublist_append_right _ _)

/-- C10: the output of `escapeHtml` holds none of `<`, `>`, the double quote and the
single quote; wherever it holds `&`, one of the five entities starts there; and the
characters of the input other than the five special ones occur in it unchanged and in
their order. -/
theorem escapeHtml_safe (s : String) :
    (∀ c ∈ (escapeHtml s).toList,
      c ≠ '<' ∧ c ≠ '>' ∧ c ≠ Char.ofNat 34 ∧ c ≠ Char.ofNat 39) ∧
    (∀ pre post, (escapeHtml s).toList = pre ++ '&' :: post →
      ∃ e ∈ entities, e.toList <+: '&' :: post) ∧
    (s.toList.filter (fun c => !isSpecial c)).Sublist (escapeHtml s).toList := by
  refine ⟨?_, ?_, ?_⟩
  · intro c hc
    obtain ⟨a, _, ha⟩ := List.mem_flatMap.1 (show c ∈ s.toList.flatMap escapeChar from hc)
    exact escapeChar_clean a c ha
  · intro pre post h
    exact flatMap_escapeChar_amp s.toList pre post h
  · exact flatMap_escapeChar_sublist s.toList

end FamilyDraft
